import Mathlib

/-!
Shallow embedding of the hybrid retrieval engine of `law_mate`
(`src/services/search/hybrid_search.py`), together with proofs that settle the
frozen claims about it.

Modelling conventions:
* Text is a `List Char`; Python `str` operations are modelled over the
  alphabets this engine is exercised on (ASCII plus Hangul syllables).
* Python floats are idealised as rationals (`ℚ`); `math.log` is an abstract
  parameter `lg : ℚ → ℚ` threaded through the index, so every statement below
  holds for the real logarithm in particular.
* `async` plumbing, logging, and the thread-pool executor are erased: each
  Python method becomes a pure function on an explicit service state.
  A call into the external vector store or document store that may raise is
  modelled by an `Option`-valued argument (`none` = the call raised).
* Python's in-place mutation of `self` becomes explicit state passing; a
  method that may propagate an exception returns the mutated state together
  with a success flag.
-/

attribute [local semireducible] Rat.add Rat.mul Rat.inv Rat.sub Rat.ofScientific

namespace LawMate

/-- Tokens are lists of characters. -/
abbrev Token := List Char

/-- The Hangul-syllable block `가`..`힣` (U+AC00..U+D7A3): the regex class
`[가-힣]` used by `BM25._tokenize`. -/
def isHangul (c : Char) : Bool :=
  0xAC00 ≤ c.toNat && c.toNat ≤ 0xD7A3

/-- Python regex `\w` (word character), restricted to the alphabet this engine
is exercised on: ASCII alphanumerics, underscore, and Hangul syllables (all of
which are `\w` in Python's Unicode mode). -/
def isWordChar (c : Char) : Bool :=
  c.isAlphanum || c == '_' || isHangul c

/-- Python regex `\s` (whitespace), restricted to ASCII whitespace. -/
def isSpaceChar (c : Char) : Bool :=
  c == ' ' || c == '\t' || c == '\n' || c == '\r' || c == '\x0b' || c == '\x0c'

/-- One character of `re.sub(r"[^\w\s가-힣]", " ", text)`: a character outside
the kept class is replaced by a space. -/
def cleanChar (c : Char) : Char :=
  if isWordChar c || isSpaceChar c || isHangul c then c else ' '

/-- Helper for `splitWs`: accumulates the current (reversed) run of
non-whitespace characters. -/
def splitWsAux : List Char → List Char → List (List Char)
  | [], acc => if acc.isEmpty then [] else [acc.reverse]
  | c :: cs, acc =>
    if isSpaceChar c then
      if acc.isEmpty then splitWsAux cs [] else acc.reverse :: splitWsAux cs []
    else splitWsAux cs (c :: acc)

/-- Python `str.split()` with no separator: split on runs of whitespace,
discarding empty pieces. -/
def splitWs (s : List Char) : List (List Char) :=
  splitWsAux s []

/-- All overlapping two-character windows of a token, in order: the loop
`for i in range(len(token) - 1): result_tokens.append(token[i : i + 2])`. -/
def twoGrams : List Char → List (List Char)
  | c1 :: c2 :: rest => [c1, c2] :: twoGrams (c2 :: rest)
  | _ => []

/-- Python `re.match(r"[가-힣]+", token)`: `re.match` anchors at the start
only, so it succeeds exactly when the first character is a Hangul syllable. -/
def startsHangul : List Char → Bool
  | [] => false
  | c :: _ => isHangul c

/-- The per-token body of the loop in `BM25._tokenize`: keep tokens of length
at least 2, and for those that `re.match(r"[가-힣]+", ·)` accepts and have
length at least 3, additionally emit every overlapping 2-gram. -/
def expandToken (tok : List Char) : List (List Char) :=
  if 2 ≤ tok.length then
    tok :: (if startsHangul tok && decide (3 ≤ tok.length) then twoGrams tok else [])
  else []

/-- Models `BM25._tokenize`: lower-case, replace every character outside
`[\w\s가-힣]` by a space, split on whitespace, then expand each surviving
token with `expandToken`. -/
def tokenize (text : List Char) : List (List Char) :=
  (splitWs ((text.map Char.toLower).map cleanChar)).flatMap expandToken

/-- The number of indexed documents (as token lists) that contain the term:
`self.document_frequencies[term]` as built by `BM25.fit`. -/
def docFreq (docTokens : List (List Token)) (t : Token) : ℕ :=
  (docTokens.filter (fun toks => decide (t ∈ toks))).length

/-- Models `BM25._calculate_idf`: `0` when the document frequency is `0`, otherwise
`log((N - df + 0.5) / (df + 0.5))` with the abstract logarithm `lg`. -/
def calcIdf (lg : ℚ → ℚ) (nDocs : ℕ) (df : ℕ) : ℚ :=
  if df = 0 then 0
  else lg (((nDocs : ℚ) - (df : ℚ) + 1/2) / ((df : ℚ) + 1/2))

/-- The state of a `BM25` instance after construction or `fit`.  The Python
dictionaries (`Counter` per document, `document_frequencies`, `idf_cache`)
are modelled as total functions that return `0` off their key set, matching
`term in term_freq` (membership iff count > 0) and `.get(term, 0)`. -/
structure BM25 where
  k1 : ℚ
  b : ℚ
  documents : List (List Char)
  doc_lengths : List ℕ
  avg_doc_length : ℚ
  term_frequencies : List (Token → ℕ)
  document_frequencies : Token → ℕ
  idf_cache : Token → ℚ

/-- The state `BM25.__init__` leaves behind (before any `fit`). -/
def bm25Init : BM25 :=
  { k1 := 3/2, b := 3/4, documents := [], doc_lengths := [], avg_doc_length := 0,
    term_frequencies := [], document_frequencies := fun _ => 0, idf_cache := fun _ => 0 }

/-- Models `BM25.fit`: tokenize every document, record lengths and per-document term
frequencies, corpus document frequencies, the average document length
(`sum / len` if nonempty else `0`), and the IDF cache. -/
def BM25.fit (lg : ℚ → ℚ) (k1 b : ℚ) (documents : List (List Char)) : BM25 :=
  let docTokens := documents.map tokenize
  let doc_lengths := docTokens.map List.length
  { k1 := k1, b := b, documents := documents, doc_lengths := doc_lengths,
    avg_doc_length :=
      if doc_lengths.isEmpty then 0
      else (doc_lengths.sum : ℚ) / (doc_lengths.length : ℚ),
    term_frequencies := docTokens.map (fun toks => fun t => toks.count t),
    document_frequencies := fun t => docFreq docTokens t,
    idf_cache := fun t => calcIdf lg documents.length (docFreq docTokens t) }

/-- The per-document score loop inside `BM25.search`: for each query token
present in the document's term-frequency table, add
`idf * (tf * (k1+1)) / (tf + k1 * (1 - b + b * (doc_length / avg_doc_length)))`. -/
def BM25.scoreDoc (bm : BM25) (query_tokens : List Token) (doc_idx : ℕ) : ℚ :=
  let doc_length : ℚ := (bm.doc_lengths.getD doc_idx 0 : ℕ)
  let term_freq := bm.term_frequencies.getD doc_idx (fun _ => 0)
  query_tokens.foldl
    (fun score term =>
      if 0 < term_freq term then
        let tf : ℚ := (term_freq term : ℕ)
        let idf := bm.idf_cache term
        let numerator := tf * (bm.k1 + 1)
        let denominator :=
          tf + bm.k1 * (1 - bm.b + bm.b * (doc_length / bm.avg_doc_length))
        score + idf * (numerator / denominator)
      else score)
    0

/-- Python list slicing `xs[:k]` for a possibly negative bound: a negative `k`
drops `|k|` elements from the end. -/
def pySliceTo {α : Type} (xs : List α) (k : ℤ) : List α :=
  if 0 ≤ k then xs.take k.toNat else xs.take (xs.length - (-k).toNat)

/-- Insert `x` into a descending-sorted list, before the first element whose
key is not larger; equal keys keep the earlier element earlier (stability). -/
def insertDescBy {α : Type} (key : α → ℚ) (x : α) : List α → List α
  | [] => [x]
  | y :: ys => if key y ≤ key x then x :: y :: ys else y :: insertDescBy key x ys

/-- Stable descending sort by `key`: models Python's stable
`list.sort(key=key, reverse=True)`. -/
def sortDescBy {α : Type} (key : α → ℚ) : List α → List α
  | [] => []
  | x :: xs => insertDescBy key x (sortDescBy key xs)

/-- Models `BM25.search`: score every indexed document against the tokenized query,
sort `(doc_idx, score)` pairs stably by score descending, return `scores[:top_k]`. -/
def BM25.search (bm : BM25) (query : List Char) (top_k : ℤ) : List (ℕ × ℚ) :=
  let query_tokens := tokenize query
  let scores := (List.range bm.documents.length).map
    (fun doc_idx => (doc_idx, bm.scoreDoc query_tokens doc_idx))
  pySliceTo (sortDescBy Prod.snd scores) top_k

/-- A corpus document as handed to the lifecycle operations: the Python dict
`{"content": ..., "source": ..., "metadata": ...}`, with the opaque metadata
mapping modelled as an association list. -/
structure Doc where
  content : List Char
  source : List Char
  meta : List (Token × Token)
deriving DecidableEq

/-- One entry of `self.document_metadata` (the `original_doc` back-pointer is
elided: nothing downstream of the claims reads it). -/
structure DocMeta where
  source : List Char
  meta : List (Token × Token)
deriving DecidableEq

/-- Default metadata used for the (unreachable) out-of-range dictionary
lookups. -/
def dmDefault : DocMeta := { source := [], meta := [] }

instance : Inhabited DocMeta := ⟨dmDefault⟩

/-- The mutable state of a `HybridSearchService`. -/
structure HState where
  bm25 : BM25
  documents : List (List Char)
  document_metadata : List DocMeta
  bm25_index_built : Bool
  bm25_weight : ℚ
  vector_weight : ℚ

/-- The state `HybridSearchService.__init__` leaves behind. -/
def initState (bm25_weight vector_weight : ℚ) : HState :=
  { bm25 := bm25Init, documents := [], document_metadata := [],
    bm25_index_built := false, bm25_weight := bm25_weight,
    vector_weight := vector_weight }

/-- One lexical result dict produced by `HybridSearchService._bm25_search`. -/
structure BmResult where
  content : List Char
  source : List Char
  meta : List (Token × Token)
  bm25_score : ℚ
  doc_index : ℕ
deriving DecidableEq

/-- One vector result dict after `HybridSearchService._vector_search` copied
`similarity_score` into `vector_score`.  These come from the external vector
store and are otherwise opaque here. -/
structure VecResult where
  content : List Char
  source : List Char
  meta : List (Token × Token)
  vector_score : ℚ
deriving DecidableEq

/-- The strings `"bm25"` / `"vector"` appended to `found_in`. -/
inductive Tag
  | bm25
  | vector
deriving DecidableEq

/-- One fused result dict built by `HybridSearchService._combine_results`
(the constant `search_method = "hybrid"` field is elided). -/
structure RankedResult where
  content : List Char
  source : List Char
  meta : List (Token × Token)
  hybrid_score : ℚ
  bm25_score : ℚ
  vector_score : ℚ
  found_in : List Tag
deriving DecidableEq

/-- A default `RankedResult`, used only to express concrete lookups. -/
def rrDefault : RankedResult :=
  { content := [], source := [], meta := [], hybrid_score := 0,
    bm25_score := 0, vector_score := 0, found_in := [] }

instance : Inhabited RankedResult := ⟨rrDefault⟩

namespace HybridSearchService

/-- Models `HybridSearchService._bm25_search`: guard on the built flag and a
nonempty corpus, run `BM25.search`, and keep only strictly positive scores,
resolving each document index against the stored contents and metadata. -/
def bm25_search (st : HState) (query : List Char) (top_k : ℤ) : List BmResult :=
  if !st.bm25_index_built || st.documents.isEmpty then []
  else
    ((st.bm25.search query top_k).filter (fun p => decide (0 < p.2))).map
      (fun p =>
        { content := st.documents.getD p.1 [],
          source := (st.document_metadata.getD p.1 dmDefault).source,
          meta := (st.document_metadata.getD p.1 dmDefault).meta,
          bm25_score := p.2, doc_index := p.1 })

/-- Models `HybridSearchService._vector_search`: the external call either raises
(`none`, caught and turned into `[]`) or returns its result list. -/
def vector_search (vres : Option (List VecResult)) : List VecResult :=
  vres.getD []

/-- The running value of one `doc_scores[content]` entry of
`_combine_results` (the defaultdict default has all scores `0`, empty
strings, and an empty `found_in`). -/
structure Accum where
  bm25_score : ℚ
  vector_score : ℚ
  content : List Char
  source : List Char
  meta : List (Token × Token)
  found_in : List Tag
deriving DecidableEq

/-- The defaultdict default entry. -/
def emptyAccum : Accum :=
  { bm25_score := 0, vector_score := 0, content := [], source := [],
    meta := [], found_in := [] }

instance : Inhabited Accum := ⟨emptyAccum⟩

/-- Update-or-insert on the insertion-ordered dictionary `doc_scores`:
`doc_scores[key]` is mutated by `f` if present, otherwise a default entry is
created (at the end, as Python dicts preserve insertion order) and mutated. -/
def updAssoc (m : List (List Char × Accum)) (key : List Char) (f : Accum → Accum) :
    List (List Char × Accum) :=
  match m with
  | [] => [(key, f emptyAccum)]
  | (k, v) :: rest =>
    if k = key then (k, f v) :: rest else (k, v) :: updAssoc rest key f

/-- Models `max(...)` over a Python list, together with the
`if bm25_results else 1.0` default for the empty batch. -/
def maxQ : List ℚ → ℚ
  | [] => 1
  | x :: xs => xs.foldl max x

/-- The body of the `for result in bm25_results` loop of `_combine_results`:
store the normalised lexical score (0 when the batch maximum is not
positive), copy content/source/metadata, and append the lexical tag. -/
def bmStepFn (max_bm25_score : ℚ) (r : BmResult) (a : Accum) : Accum :=
  { a with
    bm25_score := if 0 < max_bm25_score then r.bm25_score / max_bm25_score else 0,
    content := r.content, source := r.source, meta := r.meta,
    found_in := a.found_in ++ [Tag.bm25] }

/-- The body of the `for result in vector_results` loop of
`_combine_results`: store the vector score, fill content/source/metadata only
when the lexical pass did not (empty content), and append the vector tag. -/
def vecStepFn (r : VecResult) (a : Accum) : Accum :=
  let a1 := { a with vector_score := r.vector_score }
  let a2 :=
    if a1.content.isEmpty then
      { a1 with content := r.content, source := r.source, meta := r.meta }
    else a1
  { a2 with found_in := a2.found_in ++ [Tag.vector] }

/-- The body of the `for content, scores in doc_scores.items()` loop of
`_combine_results`: weighted hybrid score with the `* 1.1` consensus bonus
when `found_in` has more than one entry. -/
def mkRanked (bm25_weight vector_weight : ℚ) (kv : List Char × Accum) : RankedResult :=
  let scores := kv.2
  let base := scores.bm25_score * bm25_weight + scores.vector_score * vector_weight
  let hybrid_score := if 1 < scores.found_in.length then base * (11/10) else base
  { content := kv.1, source := scores.source, meta := scores.meta,
    hybrid_score := hybrid_score, bm25_score := scores.bm25_score,
    vector_score := scores.vector_score, found_in := scores.found_in }

/-- Models `HybridSearchService._combine_results`: join the two result lists by
content text into `doc_scores`, normalising lexical scores by the batch
maximum, then compute hybrid scores (with the `* 1.1` bonus when `found_in`
has more than one entry), drop empty contents, sort by hybrid score
descending, and return `hybrid_results[:top_k]`. -/
def combine_results (bm25_weight vector_weight : ℚ)
    (bm25_results : List BmResult) (vector_results : List VecResult)
    (top_k : ℤ) : List RankedResult :=
  let max_bm25_score := maxQ (bm25_results.map (fun r => r.bm25_score))
  let m1 := bm25_results.foldl
    (fun m r => updAssoc m r.content (bmStepFn max_bm25_score r)) []
  let m2 := vector_results.foldl
    (fun m r => updAssoc m r.content (vecStepFn r)) m1
  let hybrid_results := (m2.filter (fun kv => !kv.1.isEmpty)).map
    (mkRanked bm25_weight vector_weight)
  pySliceTo (sortDescBy (fun r => r.hybrid_score) hybrid_results) top_k

/-- Python `str.strip()`: drop leading and trailing whitespace. -/
def pyStrip (s : List Char) : List Char :=
  ((s.dropWhile isSpaceChar).reverse.dropWhile isSpaceChar).reverse

/-- Models `HybridSearchService.search`: return `[]` for a whitespace-only query,
otherwise run the lexical search with `top_k * 2` and combine it with the
vector sub-search outcome (`vres`, `none` when the vector path raised). -/
def search (st : HState) (vres : Option (List VecResult)) (query : List Char)
    (top_k : ℤ) : List RankedResult :=
  if (pyStrip query).isEmpty then []
  else
    combine_results st.bm25_weight st.vector_weight
      (bm25_search st query (top_k * 2)) (vector_search vres) top_k

/-- Models `HybridSearchService.build_indexes`: a no-op on an empty input, otherwise
store the nonempty-content documents and their metadata and refit the BM25
index over them (setting the built flag). -/
def build_indexes (lg : ℚ → ℚ) (st : HState) (docs : List Doc) : HState :=
  if docs.isEmpty then st
  else
    let kept := docs.filter (fun d => !d.content.isEmpty)
    let documents := kept.map (fun d => d.content)
    { st with
      documents := documents,
      document_metadata := kept.map (fun d => { source := d.source, meta := d.meta }),
      bm25 := BM25.fit lg st.bm25.k1 st.bm25.b documents,
      bm25_index_built := true }

/-- Models `HybridSearchService.rebuild_index`: clear the in-memory index first,
then fetch the full corpus (`fetched`, `none` when `get_all_documents`
raised) and rebuild.  Returns the resulting state and a success flag (the
flag is `false` when the exception propagates to the caller). -/
def rebuild_index (lg : ℚ → ℚ) (st : HState) (fetched : Option (List Doc)) :
    HState × Bool :=
  let st1 := { st with documents := [], document_metadata := [],
                       bm25_index_built := false }
  match fetched with
  | none => (st1, false)
  | some docs =>
    if docs.isEmpty then (st1, true) else (build_indexes lg st1 docs, true)

/-- Models `HybridSearchService._remove_documents_by_source`: collect the indices
whose metadata carries the given source and delete those positions from both
parallel lists (documents beyond the metadata length are untouched, matching
the `i < len(...)` guards). -/
def remove_documents_by_source (st : HState) (source : List Char) : HState :=
  let keep := (List.range st.document_metadata.length).filter
    (fun i => decide ((st.document_metadata.getD i dmDefault).source ≠ source))
  { st with
    documents :=
      keep.filterMap (fun i => st.documents.get? i)
        ++ st.documents.drop st.document_metadata.length,
    document_metadata := keep.filterMap (fun i => st.document_metadata.get? i) }

/-- Models `HybridSearchService._add_documents_to_index`: append the
nonempty-content documents and their metadata, then refit BM25 over the whole
resulting document list when it is nonempty. -/
def add_documents_to_index (lg : ℚ → ℚ) (st : HState) (docs : List Doc) : HState :=
  let kept := docs.filter (fun d => !d.content.isEmpty)
  let st1 := { st with
    documents := st.documents ++ kept.map (fun d => d.content),
    document_metadata :=
      st.document_metadata ++ kept.map (fun d => { source := d.source, meta := d.meta }) }
  if st1.documents.isEmpty then st1
  else { st1 with
    bm25 := BM25.fit lg st1.bm25.k1 st1.bm25.b st1.documents,
    bm25_index_built := true }

/-- Models `HybridSearchService.rebuild_index_by_source`: fetch the stored documents
for the source (`none` when the store raised); on an empty fetch return with
a warning and the state untouched; otherwise remove the in-memory documents
of that source and merge the fetched ones in. -/
def rebuild_index_by_source (lg : ℚ → ℚ) (st : HState) (source : List Char)
    (fetched : Option (List Doc)) : HState × Bool :=
  match fetched with
  | none => (st, false)
  | some docs =>
    if docs.isEmpty then (st, true)
    else (add_documents_to_index lg (remove_documents_by_source st source) docs, true)

end HybridSearchService

/-! ## Spec-side definitions

These follow the wording of `spec.md` (not the source); they exist to be
compared against the definitions above. -/

/-- Spec §4.1: "every overlapping 2-character substring" of a token, written
as the family of windows `token[i : i + 2]` for `i` ranging over the token. -/
def specTwoGrams (tok : List Char) : List (List Char) :=
  (List.range (tok.length - 1)).map (fun i => (tok.drop i).take 2)

/-- The tokenizer exactly as §4.1 of the spec words it: sub-word expansion
applies to "any token composed entirely of Hangul syllables and at least 3
characters long". -/
def tokenizeSpec (text : List Char) : List (List Char) :=
  (splitWs ((text.map Char.toLower).map cleanChar)).flatMap
    (fun tok =>
      if 2 ≤ tok.length then
        tok :: (if tok.all isHangul && decide (3 ≤ tok.length) then specTwoGrams tok else [])
      else [])

/-- The tokenizer as amended: sub-word expansion applies to any token whose
first character is a Hangul syllable (the anchored `re.match`) and that is at
least 3 characters long. -/
def tokenizeSpecAmended (text : List Char) : List (List Char) :=
  (splitWs ((text.map Char.toLower).map cleanChar)).flatMap
    (fun tok =>
      if 2 ≤ tok.length then
        tok :: (if startsHangul tok && decide (3 ≤ tok.length) then specTwoGrams tok else [])
      else [])

/-- Spec §4.2: `df(t)` = number of documents containing `t`. -/
def specDf (docs : List (List Char)) (t : Token) : ℕ :=
  (docs.filter (fun d => decide (t ∈ tokenize d))).length

/-- Spec §4.2: `idf(t) = ln((N - df(t) + 0.5) / (df(t) + 0.5))`, with no
flooring at zero. -/
def specIdf (lg : ℚ → ℚ) (docs : List (List Char)) (t : Token) : ℚ :=
  lg (((docs.length : ℚ) - (specDf docs t : ℚ) + 1/2) / ((specDf docs t : ℚ) + 1/2))

/-- Spec §4.2: `avgdl` = corpus average token count. -/
def specAvgdl (docs : List (List Char)) : ℚ :=
  ((docs.map (fun d => ((tokenize d).length : ℚ))).sum) / (docs.length : ℚ)

/-- Spec §4.2: the document score as the spec states it, with `k1 = 1.5` and
`b = 0.75`: the sum over query tokens present in the document of
`idf(t) * (tf(t,d) * (k1+1)) / (tf(t,d) + k1 * (1 - b + b * |d| / avgdl))`;
tokens absent from the document (in particular, absent from the corpus)
contribute zero. -/
def specScore (lg : ℚ → ℚ) (docs : List (List Char)) (query : List Char) (i : ℕ) : ℚ :=
  let d := tokenize (docs.getD i [])
  ((tokenize query).map
    (fun t =>
      if t ∈ d then
        specIdf lg docs t * ((d.count t : ℚ) * (3/2 + 1)) /
          ((d.count t : ℚ) + (3/2) * (1 - 3/4 + (3/4) * ((d.length : ℚ) / specAvgdl docs)))
      else 0)).sum

/-! ## Concrete instantiations used by witnesses and counterexamples -/

/-- A stand-in for `math.log` that is constantly `1` (all statements proved
for an abstract `lg` hold for it; a positive value keeps scores positive). -/
def lgOne : ℚ → ℚ := fun _ => 1

/-- A stand-in for `math.log` that is constantly `-1`, exhibiting the
negative-IDF regime the claims call out. -/
def lgNegOne : ℚ → ℚ := fun _ => -1

/-- A two-letter word used as a one-token document and query. -/
def aWord : List Char := "ab".toList

/-- A ready service state over the one-document corpus `["ab"]`. -/
def stOne : HState :=
  HybridSearchService.build_indexes lgOne (initState (3/10) (7/10))
    [{ content := aWord, source := "s".toList, meta := [] }]

/-- The single lexical result `bm25_search stOne "ab" 5` produces (with
`lgOne` the contribution is `1 * (1 * 2.5) / (1 + 1.5) = 1`). -/
def bmOneResult : BmResult :=
  { content := aWord, source := "s".toList, meta := [], bm25_score := 1, doc_index := 0 }

/-- A sign-faithful surrogate for `math.log`: positive exactly on arguments
greater than 1, zero at 1, negative below — the sign behaviour the real
logarithm has everywhere.  The evaluation lemmas below show the engine's
observable behaviour on the `stFive` corpus depends on the logarithm only
through its sign at `7/5`, so instantiating with this surrogate reproduces
the real program's run exactly. -/
def lgSgn : ℚ → ℚ := fun x => if 1 < x then 1 else if x < 1 then -1 else 0

/-- Content of the first `stFive` document containing the query token. -/
def ctAbCd : List Char := "ab cd".toList

/-- Content of the second `stFive` document containing the query token. -/
def ctAbCe : List Char := "ab ce".toList

/-- The source tag shared by the concrete corpora. -/
def srcS : List Char := "s".toList

/-- A ready five-document service state: two documents contain the query
token `ab` and three do not, so `df(ab) = 2 < N/2 = 2.5` and the real IDF is
`ln((5 - 2 + 0.5)/(2 + 0.5)) = ln(7/5) > 0`.  All documents have two tokens,
so the two matching documents receive equal positive scores under any
logarithm positive at `7/5`. -/
def stFive (lg : ℚ → ℚ) : HState :=
  HybridSearchService.build_indexes lg (initState (3/10) (7/10))
    [{ content := ctAbCd, source := srcS, meta := [] },
     { content := ctAbCe, source := srcS, meta := [] },
     { content := "fg hi".toList, source := srcS, meta := [] },
     { content := "fj hk".toList, source := srcS, meta := [] },
     { content := "fl hm".toList, source := srcS, meta := [] }]

/-- The first fused result the `stFive` corpus produces for query `ab`
(normalised lexical score `c/c = 1`, hybrid `1 * 0.3 + 0 * 0.7 = 0.3`). -/
def rrFiveA : RankedResult :=
  { content := ctAbCd, source := srcS, meta := [], hybrid_score := 3/10,
    bm25_score := 1, vector_score := 0, found_in := [Tag.bm25] }

/-- The second fused result the `stFive` corpus produces for query `ab`. -/
def rrFiveB : RankedResult :=
  { content := ctAbCe, source := srcS, meta := [], hybrid_score := 3/10,
    bm25_score := 1, vector_score := 0, found_in := [Tag.bm25] }

/-- A ready service state with a single document tagged with source `a`. -/
def stSrc : HState :=
  HybridSearchService.build_indexes lgOne (initState (3/10) (7/10))
    [{ content := "x0".toList, source := "a".toList, meta := [] }]

/-- Two lexical results that refer to two distinct documents (indices 0 and
1) sharing identical content text. -/
def brDup : List BmResult :=
  [{ content := "dup".toList, source := "s1".toList, meta := [], bm25_score := 1, doc_index := 0 },
   { content := "dup".toList, source := "s2".toList, meta := [], bm25_score := 1/2, doc_index := 1 }]

/-- The single fused result `_combine_results` produces from `brDup` and an
empty vector list: the two distinct documents are collapsed into one entry,
keyed by content, with the consensus bonus applied
(`(1/2 * 3/10) * 1.1 = 33/200`). -/
def rrDup : RankedResult :=
  { content := "dup".toList, source := "s2".toList, meta := [],
    hybrid_score := 33/200, bm25_score := 1/2, vector_score := 0,
    found_in := [Tag.bm25, Tag.bm25] }

/-! ## Helper lemmas -/

/-- Inserting with `insertDescBy` is a permutation of consing. -/
theorem insertDescBy_perm {α : Type} (key : α → ℚ) (x : α) (l : List α) :
    (insertDescBy key x l).Perm (x :: l) := by
  induction l with
  | nil => exact List.Perm.refl _
  | cons y ys ih =>
    unfold insertDescBy
    by_cases h : key y ≤ key x
    · rw [if_pos h]
    · rw [if_neg h]
      exact (ih.cons y).trans (List.Perm.swap x y ys)

/-- Sorting with `sortDescBy` permutes its input. -/
theorem sortDescBy_perm {α : Type} (key : α → ℚ) (l : List α) :
    (sortDescBy key l).Perm l := by
  induction l with
  | nil => exact List.Perm.refl _
  | cons x xs ih =>
    exact (insertDescBy_perm key x (sortDescBy key xs)).trans (ih.cons x)

/-- A Python slice `xs[:k]` is a sublist of `xs`. -/
theorem pySliceTo_sublist {α : Type} (xs : List α) (k : ℤ) :
    (pySliceTo xs k).Sublist xs := by
  unfold pySliceTo
  split
  · exact List.take_sublist _ _
  · exact List.take_sublist _ _

/-- A Python slice `xs[:k]` with `0 ≤ k` and `xs` short enough is all of `xs`. -/
theorem pySliceTo_of_le {α : Type} (xs : List α) (k : ℤ) (hk : 0 ≤ k)
    (hlen : xs.length ≤ k.toNat) : pySliceTo xs k = xs := by
  unfold pySliceTo
  rw [if_pos hk]
  exact List.take_of_length_le hlen

/-- A fold that conditionally accumulates is the sum of its guarded
contributions. -/
theorem foldl_guarded_add {α : Type} (c : α → Prop) [DecidablePred c] (h : α → ℚ) :
    ∀ (l : List α) (init : ℚ),
      l.foldl (fun s t => if c t then s + h t else s) init
        = init + (l.map (fun t => if c t then h t else 0)).sum
  | [], init => by simp
  | t :: ts, init => by
    by_cases hc : c t <;>
      simp [hc, foldl_guarded_add c h ts, add_assoc]

/-- Lemma: `fit` records one term-frequency table per document, in order. -/
theorem fit_term_frequencies (lg : ℚ → ℚ) (k1 b : ℚ) (docs : List (List Char)) :
    (BM25.fit lg k1 b docs).term_frequencies
      = (docs.map tokenize).map (fun toks => fun t => toks.count t) := rfl

/-- Lemma: `fit` records one token count per document, in order. -/
theorem fit_doc_lengths (lg : ℚ → ℚ) (k1 b : ℚ) (docs : List (List Char)) :
    (BM25.fit lg k1 b docs).doc_lengths = (docs.map tokenize).map List.length := rfl

/-- Lemma: `fit`'s IDF cache is `calcIdf` of the document frequency. -/
theorem fit_idf_cache (lg : ℚ → ℚ) (k1 b : ℚ) (docs : List (List Char)) :
    (BM25.fit lg k1 b docs).idf_cache
      = fun t => calcIdf lg docs.length (docFreq (docs.map tokenize) t) := rfl

/-- Lemma: `fit` keeps the supplied `k1`. -/
theorem fit_k1 (lg : ℚ → ℚ) (k1 b : ℚ) (docs : List (List Char)) :
    (BM25.fit lg k1 b docs).k1 = k1 := rfl

/-- Lemma: `fit` keeps the supplied `b`. -/
theorem fit_b (lg : ℚ → ℚ) (k1 b : ℚ) (docs : List (List Char)) :
    (BM25.fit lg k1 b docs).b = b := rfl

/-- The document frequency over pre-tokenized documents agrees with the
spec's count of documents containing the term. -/
theorem docFreq_map_tokenize (docs : List (List Char)) (t : Token) :
    docFreq (docs.map tokenize) t = specDf docs t := by
  simp only [docFreq, specDf, List.filter_map, List.length_map, Function.comp]
  rfl

/-- On a nonempty corpus, `fit`'s average document length is the spec's
`avgdl`. -/
theorem fit_avg_eq_specAvgdl (lg : ℚ → ℚ) (k1 b : ℚ) (docs : List (List Char))
    (hne : docs ≠ []) :
    (BM25.fit lg k1 b docs).avg_doc_length = specAvgdl docs := by
  have h1 : ((docs.map tokenize).map List.length).isEmpty = false := by
    simp [List.isEmpty_eq_false, hne]
  show (if ((docs.map tokenize).map List.length).isEmpty then (0 : ℚ)
      else (((docs.map tokenize).map List.length).sum : ℚ)
        / ((((docs.map tokenize).map List.length)).length : ℚ))
    = specAvgdl docs
  rw [h1]
  simp only [Bool.false_eq_true, if_false, specAvgdl, Nat.cast_list_sum,
    List.map_map, List.length_map, Function.comp]
  rfl

/-- For a term occurring in document `i`, `fit`'s cached IDF is the spec's
(unfloored) IDF. -/
theorem fit_idf_of_mem (lg : ℚ → ℚ) (k1 b : ℚ) (docs : List (List Char))
    (i : ℕ) (t : Token) (hi : i < docs.length) (ht : t ∈ tokenize (docs.get ⟨i, hi⟩)) :
    (BM25.fit lg k1 b docs).idf_cache t = specIdf lg docs t := by
  have hmem : docs.get ⟨i, hi⟩ ∈ docs.filter (fun doc => decide (t ∈ tokenize doc)) := by
    rw [List.mem_filter]
    exact ⟨docs.get_mem i hi, by simpa using ht⟩
  have hdf : specDf docs t ≠ 0 := by
    have := List.length_pos.2 (List.ne_nil_of_mem hmem)
    simp only [specDf]
    omega
  rw [fit_idf_cache]
  show calcIdf lg docs.length (docFreq (docs.map tokenize) t) = specIdf lg docs t
  rw [docFreq_map_tokenize]
  simp only [calcIdf, specIdf, if_neg hdf]

/-! ## C4: the raw BM25 scoring formula -/

/-- C4: for every fitted index (`k1 = 1.5`, `b = 0.75`) the raw BM25 score of
document `i` is exactly the spec's sum over query tokens present in the
document of `idf(t) * (tf * (k1+1)) / (tf + k1 * (1 - b + b * |d| / avgdl))`
with `idf(t) = lg((N - df + 0.5) / (df + 0.5))` unfloored; tokens absent from
the document (hence from the corpus) contribute zero.  The second conjunct
exhibits the intentionally-preserved negative-score regime: with a negative
logarithm value the raw score itself is negative. -/
theorem bm25_raw_score_formula :
    (∀ (lg : ℚ → ℚ) (docs : List (List Char)) (query : List Char) (i : ℕ),
        i < docs.length →
        (BM25.fit lg (3/2) (3/4) docs).scoreDoc (tokenize query) i
          = specScore lg docs query i)
    ∧ (BM25.fit lgNegOne (3/2) (3/4) [aWord]).scoreDoc (tokenize aWord) 0 < 0 := by
  constructor
  · intro lg docs query i hi
    have hd : docs.getD i [] = docs.get ⟨i, hi⟩ := List.getD_eq_getElem docs [] hi
    have hne : docs ≠ [] := List.ne_nil_of_length_pos (Nat.lt_of_le_of_lt (Nat.zero_le i) hi)
    have hitf : i < ((docs.map tokenize).map (fun toks => fun t => toks.count t)).length := by
      simpa using hi
    have htf : (BM25.fit lg (3/2) (3/4) docs).term_frequencies.getD i (fun _ => 0)
        = fun t => (tokenize (docs.get ⟨i, hi⟩)).count t := by
      rw [fit_term_frequencies, List.getD_eq_getElem _ _ hitf]
      simp [List.getElem_map]
    have hidl : i < ((docs.map tokenize).map List.length).length := by simpa using hi
    have hdl : (BM25.fit lg (3/2) (3/4) docs).doc_lengths.getD i 0
        = (tokenize (docs.get ⟨i, hi⟩)).length := by
      rw [fit_doc_lengths, List.getD_eq_getElem _ _ hidl]
      simp [List.getElem_map]
    simp only [BM25.scoreDoc, htf, hdl, fit_avg_eq_specAvgdl lg (3/2) (3/4) docs hne]
    rw [foldl_guarded_add (fun term => 0 < (tokenize (docs.get ⟨i, hi⟩)).count term)
      (fun term =>
        (BM25.fit lg (3/2) (3/4) docs).idf_cache term
          * (((tokenize (docs.get ⟨i, hi⟩)).count term : ℚ)
              * ((BM25.fit lg (3/2) (3/4) docs).k1 + 1)
            / (((tokenize (docs.get ⟨i, hi⟩)).count term : ℚ)
              + (BM25.fit lg (3/2) (3/4) docs).k1
                * (1 - (BM25.fit lg (3/2) (3/4) docs).b
                  + (BM25.fit lg (3/2) (3/4) docs).b
                    * (((tokenize (docs.get ⟨i, hi⟩)).length : ℚ) / specAvgdl docs)))))
      (tokenize query) 0]
    rw [zero_add]
    simp only [specScore, hd]
    refine congrArg List.sum (List.map_congr_left ?_)
    intro t _
    by_cases ht : t ∈ tokenize (docs.get ⟨i, hi⟩)
    · rw [if_pos (List.count_pos_iff.2 ht), if_pos ht,
        fit_idf_of_mem lg (3/2) (3/4) docs i t hi ht]
      simp only [fit_k1, fit_b]
      ring
    · rw [if_neg (fun hpos => ht (List.count_pos_iff.1 hpos)), if_neg ht]
  · decide

/-- C4 witness: the formula instantiated on a one-document corpus. -/
theorem bm25_raw_score_formula_witness :
    (BM25.fit lgOne (3/2) (3/4) [aWord]).scoreDoc (tokenize aWord) 0
      = specScore lgOne [aWord] aWord 0 :=
  bm25_raw_score_formula.1 lgOne [aWord] aWord 0 (by decide)

/-! ## C10: the length-normalisation denominator never divides by zero -/

/-- C10: the scoring loop guards the denominator behind
`term in term_freq`; whenever some query term occurs in document `i`'s
term-frequency table of a fitted index, the fitted average document length is
strictly positive, so `doc_length / avg_doc_length` is a division by a
nonzero value. -/
theorem bm25_avgdl_pos_of_term_occurrence (lg : ℚ → ℚ) (docs : List (List Char))
    (i : ℕ) (t : Token)
    (h : 0 < ((BM25.fit lg (3/2) (3/4) docs).term_frequencies.getD i (fun _ => 0)) t) :
    0 < (BM25.fit lg (3/2) (3/4) docs).avg_doc_length := by
  rw [fit_term_frequencies] at h
  by_cases hi : i < docs.length
  · have hitf : i < ((docs.map tokenize).map (fun toks => fun t => toks.count t)).length := by
      simpa using hi
    rw [List.getD_eq_getElem _ _ hitf] at h
    simp only [List.getElem_map] at h
    have hmem : t ∈ tokenize (docs.get ⟨i, hi⟩) := List.count_pos_iff.1 h
    have hlenpos : 0 < (tokenize (docs.get ⟨i, hi⟩)).length :=
      List.length_pos.2 (List.ne_nil_of_mem hmem)
    have hne : docs ≠ [] := List.ne_nil_of_length_pos (Nat.lt_of_le_of_lt (Nat.zero_le i) hi)
    show (0 : ℚ) <
      if ((docs.map tokenize).map List.length).isEmpty then 0
      else (((docs.map tokenize).map List.length).sum : ℚ)
        / ((((docs.map tokenize).map List.length)).length : ℚ)
    have hempty : ((docs.map tokenize).map List.length).isEmpty = false := by
      simp [List.isEmpty_eq_false, hne]
    rw [hempty]
    simp only [Bool.false_eq_true, if_false]
    apply div_pos
    · have hmem2 : (tokenize (docs.get ⟨i, hi⟩)).length
          ∈ (docs.map tokenize).map List.length := by
        refine List.mem_map.2 ⟨tokenize (docs.get ⟨i, hi⟩), ?_, rfl⟩
        exact List.mem_map.2 ⟨docs.get ⟨i, hi⟩, docs.get_mem i hi, rfl⟩
      have hsum : (tokenize (docs.get ⟨i, hi⟩)).length
          ≤ ((docs.map tokenize).map List.length).sum :=
        List.single_le_sum (fun x _ => Nat.zero_le x) _ hmem2
      exact_mod_cast Nat.lt_of_lt_of_le hlenpos hsum
    · have : 0 < docs.length := Nat.lt_of_le_of_lt (Nat.zero_le i) hi
      simp only [List.length_map]
      exact_mod_cast this
  · exfalso
    have hge : ((docs.map tokenize).map (fun toks => fun t => toks.count t)).length ≤ i := by
      simpa using Nat.le_of_not_lt hi
    rw [List.getD_eq_default _ _ hge] at h
    exact Nat.lt_irrefl 0 h

/-- C10 witness: the guard instantiated on the one-document corpus. -/
theorem bm25_avgdl_pos_of_term_occurrence_witness :
    0 < (BM25.fit lgOne (3/2) (3/4) [aWord]).avg_doc_length :=
  bm25_avgdl_pos_of_term_occurrence lgOne [aWord] 0 aWord (by decide)

/-! ## C9: only strictly positive lexical scores reach fusion -/

/-- C9: every lexical result `_bm25_search` hands to fusion has a strictly
positive raw BM25 score (the `if score > 0` filter), so zero- or
negative-scored documents can never enter the hybrid output via the lexical
path. -/
theorem bm25_search_scores_positive (st : HState) (query : List Char) (top_k : ℤ)
    (r : BmResult) (hr : r ∈ HybridSearchService.bm25_search st query top_k) :
    0 < r.bm25_score := by
  unfold HybridSearchService.bm25_search at hr
  split at hr
  · simp at hr
  · obtain ⟨p, hp, rfl⟩ := List.mem_map.1 hr
    have := (List.mem_filter.1 hp).2
    simpa using this

/-- C9 witness: the single result over the one-document corpus has positive
score. -/
theorem bm25_search_scores_positive_witness : 0 < bmOneResult.bm25_score :=
  bm25_search_scores_positive stOne aWord 5 bmOneResult (by decide)

namespace HybridSearchService

/-- Defining equation of `updAssoc` on the empty dictionary. -/
theorem updAssoc_nil (key : List Char) (f : Accum → Accum) :
    updAssoc [] key f = [(key, f emptyAccum)] := rfl

/-- Defining equation of `updAssoc` on a nonempty dictionary. -/
theorem updAssoc_cons (k : List Char) (v : Accum) (rest : List (List Char × Accum))
    (key : List Char) (f : Accum → Accum) :
    updAssoc ((k, v) :: rest) key f
      = if k = key then (k, f v) :: rest else (k, v) :: updAssoc rest key f := rfl

/-- Keys of the `doc_scores` dictionary after one update-or-insert. -/
theorem updAssoc_fst (m : List (List Char × Accum)) (key : List Char) (f : Accum → Accum) :
    (updAssoc m key f).map Prod.fst
      = if key ∈ m.map Prod.fst then m.map Prod.fst else m.map Prod.fst ++ [key] := by
  induction m with
  | nil =>
    rw [updAssoc_nil, if_neg (by simp)]
    rfl
  | cons p rest ih =>
    obtain ⟨k, v⟩ := p
    rw [updAssoc_cons]
    by_cases hk : k = key
    · subst hk
      rw [if_pos rfl, if_pos (by simp [List.map_cons])]
      rfl
    · rw [if_neg hk, List.map_cons, ih, List.map_cons]
      have hkey : (key ∈ k :: rest.map Prod.fst) ↔ key ∈ rest.map Prod.fst := by
        rw [List.mem_cons]
        exact ⟨fun h => h.elim (fun he => absurd he.symm hk) id, Or.inr⟩
      by_cases hmem : key ∈ rest.map Prod.fst
      · rw [if_pos hmem, if_pos (hkey.2 hmem)]
      · rw [if_neg hmem, if_neg (fun h => hmem (hkey.1 h)), List.cons_append]

/-- Update-or-insert preserves distinctness of the dictionary keys. -/
theorem updAssoc_fst_nodup (m : List (List Char × Accum)) (key : List Char)
    (f : Accum → Accum) (h : (m.map Prod.fst).Nodup) :
    ((updAssoc m key f).map Prod.fst).Nodup := by
  rw [updAssoc_fst]
  split
  · exact h
  · rename_i hmem
    simp [List.nodup_append, h, hmem]

/-- Folding update-or-inserts preserves distinctness of the keys. -/
theorem foldl_updAssoc_fst_nodup {β : Type} (keyOf : β → List Char)
    (fOf : β → Accum → Accum) :
    ∀ (rs : List β) (m : List (List Char × Accum)),
      (m.map Prod.fst).Nodup →
      ((rs.foldl (fun m r => updAssoc m (keyOf r) (fOf r)) m).map Prod.fst).Nodup
  | [], _, h => h
  | r :: rs, m, h =>
    foldl_updAssoc_fst_nodup keyOf fOf rs _ (updAssoc_fst_nodup m (keyOf r) (fOf r) h)

/-- Every key after folding update-or-inserts came from the initial
dictionary or from one of the processed results. -/
theorem foldl_updAssoc_fst_from {β : Type} (keyOf : β → List Char)
    (fOf : β → Accum → Accum) :
    ∀ (rs : List β) (m : List (List Char × Accum)) (x : List Char),
      x ∈ (rs.foldl (fun m r => updAssoc m (keyOf r) (fOf r)) m).map Prod.fst →
      x ∈ m.map Prod.fst ∨ x ∈ rs.map keyOf
  | [], _, _, hx => Or.inl hx
  | r :: rs, m, x, hx => by
    rcases foldl_updAssoc_fst_from keyOf fOf rs _ x hx with h | h
    · rw [updAssoc_fst] at h
      split at h
      · exact Or.inl h
      · rcases List.mem_append.1 h with h1 | h1
        · exact Or.inl h1
        · simp only [List.mem_singleton] at h1
          subst h1
          exact Or.inr (by simp)
    · exact Or.inr (by simp [h])

/-- A per-entry invariant survives one update-or-insert when it holds of the
freshly created entry and is preserved by the update function at its key. -/
theorem updAssoc_forall (Q : List Char × Accum → Prop)
    (m : List (List Char × Accum)) (key : List Char) (f : Accum → Accum)
    (hm : ∀ kv ∈ m, Q kv) (h0 : Q (key, f emptyAccum))
    (hf : ∀ a, Q (key, a) → Q (key, f a)) :
    ∀ kv ∈ updAssoc m key f, Q kv := by
  induction m with
  | nil =>
    intro kv hkv
    simp only [updAssoc, List.mem_singleton] at hkv
    subst hkv
    exact h0
  | cons p rest ih =>
    obtain ⟨k, v⟩ := p
    intro kv hkv
    unfold updAssoc at hkv
    by_cases hk : k = key
    · rw [if_pos hk] at hkv
      rcases List.mem_cons.1 hkv with rfl | hmem
      · subst hk
        exact hf v (hm (k, v) (by simp))
      · exact hm kv (List.mem_cons_of_mem _ hmem)
    · rw [if_neg hk] at hkv
      rcases List.mem_cons.1 hkv with rfl | hmem
      · exact hm (k, v) (by simp)
      · exact ih (fun kv h => hm kv (List.mem_cons_of_mem _ h)) kv hmem

/-- A per-entry invariant survives folding update-or-inserts over a batch of
results drawn from `S`. -/
theorem foldl_updAssoc_forall {β : Type} (Q : List Char × Accum → Prop)
    (keyOf : β → List Char) (fOf : β → Accum → Accum) (S : List β)
    (h0 : ∀ r ∈ S, Q (keyOf r, fOf r emptyAccum))
    (hf : ∀ r ∈ S, ∀ a, Q (keyOf r, a) → Q (keyOf r, fOf r a)) :
    ∀ (rs : List β), rs ⊆ S → ∀ (m : List (List Char × Accum)),
      (∀ kv ∈ m, Q kv) →
      ∀ kv ∈ rs.foldl (fun m r => updAssoc m (keyOf r) (fOf r)) m, Q kv
  | [], _, _, hm => hm
  | r :: rs, hsub, m, hm => by
    have hr : r ∈ S := hsub (by simp)
    exact foldl_updAssoc_forall Q keyOf fOf S h0 hf rs
      (fun x hx => hsub (List.mem_cons_of_mem _ hx)) _
      (updAssoc_forall Q m _ _ hm (h0 r hr) (hf r hr))

/-- Inserting an absent key appends a freshly created entry at the end. -/
theorem updAssoc_of_not_mem (m : List (List Char × Accum)) (key : List Char)
    (f : Accum → Accum) (h : key ∉ m.map Prod.fst) :
    updAssoc m key f = m ++ [(key, f emptyAccum)] := by
  induction m with
  | nil => rfl
  | cons p rest ih =>
    obtain ⟨k, v⟩ := p
    have hk : ¬(k = key) := fun he => h (by simp [he])
    simp only [updAssoc, if_neg hk, List.cons_append, List.cons.injEq, true_and]
    exact ih (fun hm => h (by simp [hm]))

/-- When all processed keys are fresh and pairwise distinct, the fold is a
plain append of freshly created entries, in order. -/
theorem foldl_updAssoc_of_nodup {β : Type} (keyOf : β → List Char)
    (fOf : β → Accum → Accum) :
    ∀ (rs : List β) (m : List (List Char × Accum)),
      (m.map Prod.fst ++ rs.map keyOf).Nodup →
      rs.foldl (fun m r => updAssoc m (keyOf r) (fOf r)) m
        = m ++ rs.map (fun r => (keyOf r, fOf r emptyAccum))
  | [], m, _ => by simp
  | r :: rs, m, h => by
    have hdisj : (m.map Prod.fst).Disjoint (keyOf r :: rs.map keyOf) :=
      (List.nodup_append.1 h).2.2
    have hnotm : keyOf r ∉ m.map Prod.fst := fun hmem => hdisj hmem (by simp)
    simp only [List.foldl_cons]
    rw [updAssoc_of_not_mem m _ _ hnotm]
    rw [foldl_updAssoc_of_nodup keyOf fOf rs (m ++ [(keyOf r, fOf r emptyAccum)])
      (by simpa [List.append_assoc] using h)]
    simp [List.append_assoc]

end HybridSearchService

/-- Transporting distinct images through the sort and the final slice. -/
theorem nodup_map_pySliceTo_sortDescBy {α β : Type} (key : α → ℚ) (f : α → β)
    (l : List α) (k : ℤ) (h : (l.map f).Nodup) :
    ((pySliceTo (sortDescBy key l) k).map f).Nodup := by
  have hperm : ((sortDescBy key l).map f).Perm (l.map f) :=
    (sortDescBy_perm key l).map f
  exact ((pySliceTo_sublist (sortDescBy key l) k).map f).nodup (hperm.nodup_iff.2 h)

/-- Membership in the sorted-and-sliced output implies membership in the
input. -/
theorem mem_of_mem_pySliceTo_sortDescBy {α : Type} {key : α → ℚ} {l : List α}
    {k : ℤ} {x : α} (h : x ∈ pySliceTo (sortDescBy key l) k) : x ∈ l :=
  (sortDescBy_perm key l).subset ((pySliceTo_sublist (sortDescBy key l) k).subset h)

/-! ## C1: fusion joins by content text, not by document identity -/

/-- C1 counterexample: two lexical entries that refer to distinct documents
(`doc_index` 0 and 1) but share identical content text are collapsed into a
single fused result, so fusion does not join by stable document identity. -/
theorem combine_results_merges_distinct_docs :
    (HybridSearchService.combine_results (3/10) (7/10) brDup [] 10).length = 1
    ∧ (brDup.getD 0 bmOneResult).doc_index ≠ (brDup.getD 1 bmOneResult).doc_index
    ∧ (brDup.getD 0 bmOneResult).content = (brDup.getD 1 bmOneResult).content
    ∧ HybridSearchService.combine_results (3/10) (7/10) brDup [] 10 = [rrDup] := by
  refine ⟨?_, ?_, ?_, ?_⟩
  · decide
  · decide
  · decide
  · decide

/-- C1 (amended): fusion joins the two result sets by content text: the
fused output contains at most one result per content text (two entries are
merged into one `RankedResult` if and only if they share the same content),
and every fused content originates from one of the two input lists.
Distinct documents sharing identical content are therefore merged, as the
counterexample shows. -/
theorem combine_results_joins_by_content (wb wv : ℚ) (br : List BmResult)
    (vr : List VecResult) (k : ℤ) :
    ((HybridSearchService.combine_results wb wv br vr k).map (fun r => r.content)).Nodup
    ∧ ∀ r ∈ HybridSearchService.combine_results wb wv br vr k,
        r.content ∈ br.map (fun e => e.content) ∨ r.content ∈ vr.map (fun e => e.content) := by
  have hm1 : ((br.foldl (fun m r => HybridSearchService.updAssoc m r.content
        (HybridSearchService.bmStepFn
          (HybridSearchService.maxQ (br.map (fun r => r.bm25_score))) r)) []).map
        Prod.fst).Nodup :=
    HybridSearchService.foldl_updAssoc_fst_nodup (fun r => r.content)
      (HybridSearchService.bmStepFn
        (HybridSearchService.maxQ (br.map (fun r => r.bm25_score)))) br [] (by simp)
  have hm2 : ((vr.foldl (fun m r => HybridSearchService.updAssoc m r.content
        (HybridSearchService.vecStepFn r))
        (br.foldl (fun m r => HybridSearchService.updAssoc m r.content
          (HybridSearchService.bmStepFn
            (HybridSearchService.maxQ (br.map (fun r => r.bm25_score))) r)) [])).map
        Prod.fst).Nodup :=
    HybridSearchService.foldl_updAssoc_fst_nodup (fun r => r.content)
      HybridSearchService.vecStepFn vr _ hm1
  simp only [HybridSearchService.combine_results]
  constructor
  · apply nodup_map_pySliceTo_sortDescBy
    rw [List.map_map]
    have hcomp : ((fun r => RankedResult.content r)
        ∘ HybridSearchService.mkRanked wb wv) = Prod.fst := rfl
    rw [hcomp]
    exact ((List.filter_sublist _).map Prod.fst).nodup hm2
  · intro r hr
    have hr1 := mem_of_mem_pySliceTo_sortDescBy hr
    obtain ⟨kv, hkv, rfl⟩ := List.mem_map.1 hr1
    have hc : (HybridSearchService.mkRanked wb wv kv).content = kv.1 := rfl
    rw [hc]
    have hkv2 := (List.filter_sublist _).subset hkv
    have hx := List.mem_map_of_mem Prod.fst hkv2
    rcases HybridSearchService.foldl_updAssoc_fst_from (fun r => r.content)
        HybridSearchService.vecStepFn vr _ kv.1 hx with h | h
    · rcases HybridSearchService.foldl_updAssoc_fst_from (fun r => r.content)
          (HybridSearchService.bmStepFn
            (HybridSearchService.maxQ (br.map (fun r => r.bm25_score)))) br [] kv.1 h
        with h1 | h1
      · simp at h1
      · exact Or.inl h1
    · exact Or.inr h

/-- C1 witness: the amended join-by-content property instantiated on the
duplicate-content batch. -/
theorem combine_results_joins_by_content_witness :
    rrDup.content ∈ brDup.map (fun e => e.content)
    ∨ rrDup.content ∈ ([] : List VecResult).map (fun e => e.content) :=
  (combine_results_joins_by_content (3/10) (7/10) brDup [] 10).2 rrDup (by decide)

/-! ## C6: normalisation, weighting and the consensus bonus -/

namespace HybridSearchService

/-- The lexical-phase update appends exactly the lexical tag. -/
theorem bmStepFn_found_in (mb : ℚ) (r : BmResult) (a : Accum) :
    (bmStepFn mb r a).found_in = a.found_in ++ [Tag.bm25] := rfl

/-- The lexical-phase update stores the normalised lexical score. -/
theorem bmStepFn_bm25_score (mb : ℚ) (r : BmResult) (a : Accum) :
    (bmStepFn mb r a).bm25_score = if 0 < mb then r.bm25_score / mb else 0 := rfl

/-- The vector-phase update does not touch the lexical score. -/
theorem vecStepFn_bm25_score (r : VecResult) (a : Accum) :
    (vecStepFn r a).bm25_score = a.bm25_score := by
  by_cases h : a.content.isEmpty
  · simp [vecStepFn, h]
  · simp [vecStepFn, h]

/-- The vector-phase update appends exactly the vector tag. -/
theorem vecStepFn_found_in (r : VecResult) (a : Accum) :
    (vecStepFn r a).found_in = a.found_in ++ [Tag.vector] := by
  by_cases h : a.content.isEmpty
  · simp [vecStepFn, h]
  · simp [vecStepFn, h]

end HybridSearchService

/-- C6 counterexample: with two lexical entries sharing one content text and
no vector results at all, the fused entry has `found_in = [bm25, bm25]` and
the `1.1` bonus is applied (`33/200` instead of the unbonused `3/20`),
although the document does not appear in both source lists.  The bonus
condition is `len(found_in) > 1`, not "appears in both source lists". -/
theorem combine_bonus_without_both_lists :
    HybridSearchService.combine_results (3/10) (7/10) brDup [] 10 = [rrDup]
    ∧ Tag.vector ∉ rrDup.found_in
    ∧ rrDup.hybrid_score ≠ rrDup.bm25_score * (3/10) + rrDup.vector_score * (7/10) := by
  refine ⟨?_, ?_, ?_⟩
  · decide
  · decide
  · decide

/-- C6 (amended): every fused result's hybrid score is
`bm25_weight * norm_bm25 + vector_weight * norm_vector`, multiplied by `1.1`
exactly when its `found_in` has more than one entry (which coincides with
"appears in both source lists" only when each list's contents are distinct);
a result whose `found_in` contains the lexical tag carries the lexical score
of a batch entry with its content divided by the batch maximum (0 when that
maximum is ≤ 0), and a result without the lexical tag carries lexical score
0. -/
theorem combine_hybrid_score_formula (wb wv : ℚ) (br : List BmResult)
    (vr : List VecResult) (k : ℤ) (r : RankedResult)
    (hr : r ∈ HybridSearchService.combine_results wb wv br vr k) :
    (r.hybrid_score
      = (if 1 < r.found_in.length then (11 : ℚ)/10 else 1)
        * (r.bm25_score * wb + r.vector_score * wv))
    ∧ (Tag.bm25 ∈ r.found_in →
        ∃ e ∈ br, e.content = r.content
          ∧ r.bm25_score
            = (if 0 < HybridSearchService.maxQ (br.map (fun x => x.bm25_score)) then
                 e.bm25_score / HybridSearchService.maxQ (br.map (fun x => x.bm25_score))
               else 0))
    ∧ (Tag.bm25 ∉ r.found_in → r.bm25_score = 0) := by
  have hQ1 : ∀ kv ∈ (br.foldl (fun m r => HybridSearchService.updAssoc m r.content
        (HybridSearchService.bmStepFn
          (HybridSearchService.maxQ (br.map (fun x => x.bm25_score))) r)) []),
      (Tag.bm25 ∈ kv.2.found_in →
        ∃ e ∈ br, e.content = kv.1
          ∧ kv.2.bm25_score
            = (if 0 < HybridSearchService.maxQ (br.map (fun x => x.bm25_score)) then
                 e.bm25_score / HybridSearchService.maxQ (br.map (fun x => x.bm25_score))
               else 0))
      ∧ (Tag.bm25 ∉ kv.2.found_in → kv.2.bm25_score = 0) := by
    apply HybridSearchService.foldl_updAssoc_forall
      (fun kv =>
        (Tag.bm25 ∈ kv.2.found_in →
          ∃ e ∈ br, e.content = kv.1
            ∧ kv.2.bm25_score
              = (if 0 < HybridSearchService.maxQ (br.map (fun x => x.bm25_score)) then
                   e.bm25_score / HybridSearchService.maxQ (br.map (fun x => x.bm25_score))
                 else 0))
        ∧ (Tag.bm25 ∉ kv.2.found_in → kv.2.bm25_score = 0))
      (fun r => r.content)
      (HybridSearchService.bmStepFn
        (HybridSearchService.maxQ (br.map (fun x => x.bm25_score)))) br
    · intro e he
      refine ⟨fun _ => ⟨e, he, rfl, rfl⟩, fun hno => absurd ?_ hno⟩
      simp [HybridSearchService.bmStepFn_found_in]
    · intro e he a _
      refine ⟨fun _ => ⟨e, he, rfl, rfl⟩, fun hno => absurd ?_ hno⟩
      simp [HybridSearchService.bmStepFn_found_in]
    · exact List.Subset.refl br
    · intro kv hkv
      simp at hkv
  have hQ2 : ∀ kv ∈ (vr.foldl (fun m r => HybridSearchService.updAssoc m r.content
        (HybridSearchService.vecStepFn r))
        (br.foldl (fun m r => HybridSearchService.updAssoc m r.content
          (HybridSearchService.bmStepFn
            (HybridSearchService.maxQ (br.map (fun x => x.bm25_score))) r)) [])),
      (Tag.bm25 ∈ kv.2.found_in →
        ∃ e ∈ br, e.content = kv.1
          ∧ kv.2.bm25_score
            = (if 0 < HybridSearchService.maxQ (br.map (fun x => x.bm25_score)) then
                 e.bm25_score / HybridSearchService.maxQ (br.map (fun x => x.bm25_score))
               else 0))
      ∧ (Tag.bm25 ∉ kv.2.found_in → kv.2.bm25_score = 0) := by
    apply HybridSearchService.foldl_updAssoc_forall
      (fun kv =>
        (Tag.bm25 ∈ kv.2.found_in →
          ∃ e ∈ br, e.content = kv.1
            ∧ kv.2.bm25_score
              = (if 0 < HybridSearchService.maxQ (br.map (fun x => x.bm25_score)) then
                   e.bm25_score / HybridSearchService.maxQ (br.map (fun x => x.bm25_score))
                 else 0))
        ∧ (Tag.bm25 ∉ kv.2.found_in → kv.2.bm25_score = 0))
      (fun r => r.content) HybridSearchService.vecStepFn vr
    · intro e _
      constructor
      · intro hmem
        simp [HybridSearchService.vecStepFn_found_in,
          HybridSearchService.emptyAccum] at hmem
      · intro _
        show (HybridSearchService.vecStepFn e HybridSearchService.emptyAccum).bm25_score = 0
        rw [HybridSearchService.vecStepFn_bm25_score]
        rfl
    · intro e _ a ha
      constructor
      · intro hmem
        have hmem1 : Tag.bm25 ∈ (HybridSearchService.vecStepFn e a).found_in := hmem
        rw [HybridSearchService.vecStepFn_found_in] at hmem1
        have hmem2 : Tag.bm25 ∈ a.found_in := by
          rcases List.mem_append.1 hmem1 with h | h
          · exact h
          · simp at h
        show ∃ x ∈ br, x.content = e.content
          ∧ (HybridSearchService.vecStepFn e a).bm25_score = _
        rw [HybridSearchService.vecStepFn_bm25_score]
        exact ha.1 hmem2
      · intro hno
        have hno1 : Tag.bm25 ∉ (HybridSearchService.vecStepFn e a).found_in := hno
        rw [HybridSearchService.vecStepFn_found_in] at hno1
        show (HybridSearchService.vecStepFn e a).bm25_score = 0
        rw [HybridSearchService.vecStepFn_bm25_score]
        exact ha.2 (fun hin => hno1 (List.mem_append.2 (Or.inl hin)))
    · exact List.Subset.refl vr
    · exact hQ1
  simp only [HybridSearchService.combine_results] at hr
  have hr1 := mem_of_mem_pySliceTo_sortDescBy hr
  obtain ⟨kv, hkv, rfl⟩ := List.mem_map.1 hr1
  have hkv2 := (List.filter_sublist _).subset hkv
  have hQ := hQ2 kv hkv2
  refine ⟨?_, ?_, ?_⟩
  · show (HybridSearchService.mkRanked wb wv kv).hybrid_score = _
    have hfi : (HybridSearchService.mkRanked wb wv kv).found_in = kv.2.found_in := rfl
    have hbs : (HybridSearchService.mkRanked wb wv kv).bm25_score = kv.2.bm25_score := rfl
    have hvs : (HybridSearchService.mkRanked wb wv kv).vector_score = kv.2.vector_score := rfl
    rw [hfi, hbs, hvs]
    show (if 1 < kv.2.found_in.length then
        (kv.2.bm25_score * wb + kv.2.vector_score * wv) * (11/10)
      else kv.2.bm25_score * wb + kv.2.vector_score * wv) = _
    by_cases hlen : 1 < kv.2.found_in.length
    · rw [if_pos hlen, if_pos hlen, mul_comm]
    · rw [if_neg hlen, if_neg hlen, one_mul]
  · intro hmem
    exact hQ.1 hmem
  · intro hno
    exact hQ.2 hno

/-- C6 witness: the formula instantiated on the duplicate-content batch. -/
theorem combine_hybrid_score_formula_witness :
    rrDup.hybrid_score
      = (if 1 < rrDup.found_in.length then (11 : ℚ)/10 else 1)
        * (rrDup.bm25_score * (3/10) + rrDup.vector_score * (7/10)) :=
  (combine_hybrid_score_formula (3/10) (7/10) brDup [] 10 rrDup (by decide)).1

/-! ## Evaluation of the `stFive` corpus under an abstract logarithm

These lemmas trace the engine on the `stFive` corpus for *every* logarithm
that is positive at `7/5` — the single argument the run evaluates it at —
so in particular for the real `ln` (where `ln(7/5) > 0` since `7/5 > 1`). -/

/-- Score of the first matching document: the program evaluates the abstract
logarithm exactly at `(5 - 2 + 0.5)/(2 + 0.5) = 7/5`, and the
length-normalisation factor is `1` because every document has two tokens. -/
theorem stFive_score0 (lg : ℚ → ℚ) :
    (stFive lg).bm25.scoreDoc (tokenize aWord) 0 = lg ((7:ℚ)/5) := by
  show (0:ℚ) + lg ((7:ℚ)/5)
      * ((1 * ((3:ℚ)/2 + 1))
        / (1 + (3:ℚ)/2 * (1 - (3:ℚ)/4 + (3:ℚ)/4 * ((2:ℚ) / (2:ℚ))))) = lg ((7:ℚ)/5)
  norm_num

/-- Score of the second matching document. -/
theorem stFive_score1 (lg : ℚ → ℚ) :
    (stFive lg).bm25.scoreDoc (tokenize aWord) 1 = lg ((7:ℚ)/5) := by
  show (0:ℚ) + lg ((7:ℚ)/5)
      * ((1 * ((3:ℚ)/2 + 1))
        / (1 + (3:ℚ)/2 * (1 - (3:ℚ)/4 + (3:ℚ)/4 * ((2:ℚ) / (2:ℚ))))) = lg ((7:ℚ)/5)
  norm_num

/-- The three non-matching documents score zero (no logarithm involved). -/
theorem stFive_score2 (lg : ℚ → ℚ) :
    (stFive lg).bm25.scoreDoc (tokenize aWord) 2 = 0 := rfl

theorem stFive_score3 (lg : ℚ → ℚ) :
    (stFive lg).bm25.scoreDoc (tokenize aWord) 3 = 0 := rfl

theorem stFive_score4 (lg : ℚ → ℚ) :
    (stFive lg).bm25.scoreDoc (tokenize aWord) 4 = 0 := rfl

/-- Defining shape of `BM25.search` on the five-document index. -/
theorem stFive_bm25_list (lg : ℚ → ℚ) (k : ℤ) :
    (stFive lg).bm25.search aWord k
      = pySliceTo (sortDescBy Prod.snd
          [((0:ℕ), (stFive lg).bm25.scoreDoc (tokenize aWord) 0),
           (1, (stFive lg).bm25.scoreDoc (tokenize aWord) 1),
           (2, (stFive lg).bm25.scoreDoc (tokenize aWord) 2),
           (3, (stFive lg).bm25.scoreDoc (tokenize aWord) 3),
           (4, (stFive lg).bm25.scoreDoc (tokenize aWord) 4)]) k := rfl

/-- The stable descending sort leaves the `stFive` score list in place: the
two positive scores are equal and already lead the zeros. -/
theorem sortDescBy_two_pos (c : ℚ) (hc : 0 < c) :
    sortDescBy Prod.snd [((0:ℕ), c), (1, c), (2, (0:ℚ)), (3, 0), (4, 0)]
      = [((0:ℕ), c), (1, c), (2, (0:ℚ)), (3, 0), (4, 0)] := by
  simp [sortDescBy, insertDescBy, hc.le, le_refl]

/-- Lexical results for the truncated fetch `top_k * 2 = -2` (Python slice
`scores[:-2]` keeps the first three entries; the zero is filtered). -/
theorem stFive_bm25_neg2 (lg : ℚ → ℚ) (hc : 0 < lg ((7:ℚ)/5)) :
    HybridSearchService.bm25_search (stFive lg) aWord (-1 * 2)
      = [{ content := ctAbCd, source := srcS, meta := [],
           bm25_score := lg ((7:ℚ)/5), doc_index := 0 },
         { content := ctAbCe, source := srcS, meta := [],
           bm25_score := lg ((7:ℚ)/5), doc_index := 1 }] := by
  have hdec : decide (0 < lg ((7:ℚ)/5)) = true := decide_eq_true hc
  show (((stFive lg).bm25.search aWord (-1 * 2)).filter
      (fun p => decide (0 < p.2))).map _ = _
  rw [stFive_bm25_list lg (-1 * 2), stFive_score0, stFive_score1, stFive_score2,
    stFive_score3, stFive_score4, sortDescBy_two_pos _ hc]
  show ([((0:ℕ), lg ((7:ℚ)/5)), (1, lg ((7:ℚ)/5)), (2, (0:ℚ))].filter
      (fun p => decide (0 < p.2))).map _ = _
  simp only [List.filter_cons, List.filter_nil, hdec, if_true, decide_eq_true_eq]
  rw [if_neg (by norm_num)]
  rfl

/-- Lexical results for the fetch `top_k * 2 = 2` (slice `scores[:2]` keeps
exactly the two positive entries). -/
theorem stFive_bm25_pos2 (lg : ℚ → ℚ) (hc : 0 < lg ((7:ℚ)/5)) :
    HybridSearchService.bm25_search (stFive lg) aWord (1 * 2)
      = [{ content := ctAbCd, source := srcS, meta := [],
           bm25_score := lg ((7:ℚ)/5), doc_index := 0 },
         { content := ctAbCe, source := srcS, meta := [],
           bm25_score := lg ((7:ℚ)/5), doc_index := 1 }] := by
  have hdec : decide (0 < lg ((7:ℚ)/5)) = true := decide_eq_true hc
  show (((stFive lg).bm25.search aWord (1 * 2)).filter
      (fun p => decide (0 < p.2))).map _ = _
  rw [stFive_bm25_list lg (1 * 2), stFive_score0, stFive_score1, stFive_score2,
    stFive_score3, stFive_score4, sortDescBy_two_pos _ hc]
  show ([((0:ℕ), lg ((7:ℚ)/5)), (1, lg ((7:ℚ)/5))].filter
      (fun p => decide (0 < p.2))).map _ = _
  simp only [List.filter_cons, List.filter_nil, hdec, if_true, decide_eq_true_eq]
  rfl

/-- Fusing the two equal-score lexical entries with an empty vector list:
the batch maximum is the (positive) common score, each normalised score is
`c/c = 1`, and the fused entries are fully concrete. -/
theorem fuse_two (c : ℚ) (hc : 0 < c) (k : ℤ) :
    HybridSearchService.combine_results (3/10) (7/10)
      [{ content := ctAbCd, source := srcS, meta := [], bm25_score := c, doc_index := 0 },
       { content := ctAbCe, source := srcS, meta := [], bm25_score := c, doc_index := 1 }]
      [] k
      = pySliceTo [rrFiveA, rrFiveB] k := by
  have hqc : (if 0 < max c c then c / max c c else 0) = 1 := by
    rw [max_self, if_pos hc, div_self (ne_of_gt hc)]
  have h1 : HybridSearchService.mkRanked (3/10) (7/10)
      (ctAbCd, { bm25_score := if 0 < max c c then c / max c c else 0,
                 vector_score := 0, content := ctAbCd, source := srcS, meta := [],
                 found_in := [Tag.bm25] }) = rrFiveA := by
    rw [hqc]
    decide
  have h2 : HybridSearchService.mkRanked (3/10) (7/10)
      (ctAbCe, { bm25_score := if 0 < max c c then c / max c c else 0,
                 vector_score := 0, content := ctAbCe, source := srcS, meta := [],
                 found_in := [Tag.bm25] }) = rrFiveB := by
    rw [hqc]
    decide
  show pySliceTo (sortDescBy (fun r => r.hybrid_score)
      [HybridSearchService.mkRanked (3/10) (7/10)
        (ctAbCd, { bm25_score := if 0 < max c c then c / max c c else 0,
                   vector_score := 0, content := ctAbCd, source := srcS, meta := [],
                   found_in := [Tag.bm25] }),
       HybridSearchService.mkRanked (3/10) (7/10)
        (ctAbCe, { bm25_score := if 0 < max c c then c / max c c else 0,
                   vector_score := 0, content := ctAbCe, source := srcS, meta := [],
                   found_in := [Tag.bm25] })]) k
    = pySliceTo [rrFiveA, rrFiveB] k
  rw [h1, h2,
    show sortDescBy (fun r => r.hybrid_score) [rrFiveA, rrFiveB] = [rrFiveA, rrFiveB]
      from by decide]

/-- For every logarithm positive at `7/5` — in particular the real `ln` —
the query `ab` with `top_k = -1` over the `stFive` corpus returns one
result, not the empty list. -/
theorem stFive_search_neg_one (lg : ℚ → ℚ) (hc : 0 < lg ((7:ℚ)/5)) :
    (HybridSearchService.search (stFive lg) (some []) aWord (-1)).length = 1 := by
  unfold HybridSearchService.search
  rw [if_neg (by decide),
    show (stFive lg).bm25_weight = 3/10 from rfl,
    show (stFive lg).vector_weight = 7/10 from rfl,
    show HybridSearchService.vector_search (some []) = ([] : List VecResult) from rfl,
    stFive_bm25_neg2 lg hc, fuse_two (lg ((7:ℚ)/5)) hc (-1)]
  decide

/-- For every logarithm positive at `7/5`, the lexical sub-search inside
`search ... top_k = 1` succeeds with exactly two results. -/
theorem stFive_bm25_len_two (lg : ℚ → ℚ) (hc : 0 < lg ((7:ℚ)/5)) :
    (HybridSearchService.bm25_search (stFive lg) aWord (1 * 2)).length = 2 := by
  rw [stFive_bm25_pos2 lg hc]
  rfl

/-- For every logarithm positive at `7/5`, a failed vector path with
`top_k = 1` yields a single fused result out of the two lexical ones. -/
theorem stFive_search_one (lg : ℚ → ℚ) (hc : 0 < lg ((7:ℚ)/5)) :
    (HybridSearchService.search (stFive lg) none aWord 1).length = 1 := by
  unfold HybridSearchService.search
  rw [if_neg (by decide),
    show (stFive lg).bm25_weight = 3/10 from rfl,
    show (stFive lg).vector_weight = 7/10 from rfl,
    show HybridSearchService.vector_search none = ([] : List VecResult) from rfl,
    stFive_bm25_pos2 lg hc, fuse_two (lg ((7:ℚ)/5)) hc 1]
  decide

/-! ## C7: graceful degradation when the vector path fails -/

/-- Fusing a lexical batch with distinct, nonempty contents against an empty
vector list reproduces exactly the lexical contents (reordered by hybrid
score), each with vector score 0 and `found_in = [bm25]`, provided the batch
fits under `top_k`. -/
theorem combine_results_lexical_only (wb wv : ℚ) (L : List BmResult) (k : ℤ)
    (hnd : (L.map (fun e => e.content)).Nodup)
    (hne : ∀ e ∈ L, e.content.isEmpty = false)
    (hk : 0 ≤ k) (hlen : L.length ≤ k.toNat) :
    ((HybridSearchService.combine_results wb wv L [] k).map (fun r => r.content)).Perm
      (L.map (fun e => e.content))
    ∧ ∀ r ∈ HybridSearchService.combine_results wb wv L [] k,
        r.vector_score = 0 ∧ r.found_in = [Tag.bm25] := by
  have hm1 : L.foldl (fun m r => HybridSearchService.updAssoc m r.content
        (HybridSearchService.bmStepFn
          (HybridSearchService.maxQ (L.map (fun x => x.bm25_score))) r)) []
      = L.map (fun e => (e.content, HybridSearchService.bmStepFn
          (HybridSearchService.maxQ (L.map (fun x => x.bm25_score))) e
          HybridSearchService.emptyAccum)) := by
    have h := HybridSearchService.foldl_updAssoc_of_nodup (fun e => e.content)
      (HybridSearchService.bmStepFn
        (HybridSearchService.maxQ (L.map (fun x => x.bm25_score)))) L []
      (by simpa using hnd)
    simpa using h
  simp only [HybridSearchService.combine_results, List.foldl_nil]
  rw [hm1]
  have hfil : (L.map (fun e => (e.content, HybridSearchService.bmStepFn
        (HybridSearchService.maxQ (L.map (fun x => x.bm25_score))) e
        HybridSearchService.emptyAccum))).filter (fun kv => !kv.1.isEmpty)
      = L.map (fun e => (e.content, HybridSearchService.bmStepFn
        (HybridSearchService.maxQ (L.map (fun x => x.bm25_score))) e
        HybridSearchService.emptyAccum)) := by
    rw [List.filter_eq_self]
    intro kv hkv
    obtain ⟨e, he, rfl⟩ := List.mem_map.1 hkv
    simp [hne e he]
  rw [hfil, List.map_map]
  have hslen : (sortDescBy (fun r => r.hybrid_score)
      (L.map (HybridSearchService.mkRanked wb wv
        ∘ fun e => (e.content, HybridSearchService.bmStepFn
          (HybridSearchService.maxQ (L.map (fun x => x.bm25_score))) e
          HybridSearchService.emptyAccum)))).length ≤ k.toNat := by
    rw [(sortDescBy_perm _ _).length_eq, List.length_map]
    exact hlen
  rw [pySliceTo_of_le _ _ hk hslen]
  constructor
  · have hperm := (sortDescBy_perm (fun r => r.hybrid_score)
      (L.map (HybridSearchService.mkRanked wb wv
        ∘ fun e => (e.content, HybridSearchService.bmStepFn
          (HybridSearchService.maxQ (L.map (fun x => x.bm25_score))) e
          HybridSearchService.emptyAccum)))).map (fun r => r.content)
    refine hperm.trans ?_
    rw [List.map_map]
    exact List.Perm.refl _
  · intro r hr
    have hr1 := (sortDescBy_perm _ _).subset hr
    obtain ⟨e, he, rfl⟩ := List.mem_map.1 hr1
    exact ⟨rfl, rfl⟩

/-- C7 counterexample: over the `stFive` corpus (where the real IDF is
`ln(7/5) > 0`), the vector path fails and the lexical path succeeds with 2
results, but with `top_k = 1` the final output contains only 1 of them, not
"exactly those 2": the fused list is truncated to `top_k`.  The behaviour is
proved by `stFive_bm25_len_two` and `stFive_search_one` for *every*
logarithm positive at `7/5` — the only argument this run evaluates the
logarithm at — so it is the real program's behaviour under `math.log`; the
closed instance uses the sign-faithful surrogate `lgSgn`. -/
theorem search_truncates_lexical_results :
    0 < lgSgn ((7:ℚ)/5)
    ∧ (HybridSearchService.bm25_search (stFive lgSgn) aWord (1 * 2)).length = 2
    ∧ (HybridSearchService.search (stFive lgSgn) none aWord 1).length = 1 :=
  ⟨by decide, stFive_bm25_len_two lgSgn (by decide), stFive_search_one lgSgn (by decide)⟩

/-- C7 (amended): when the vector sub-search raises and the lexical
sub-search succeeds with `n` results (with distinct, nonempty contents), the
query does not fail: it returns exactly those `n` lexical results —
reordered by hybrid score, each with `vector_score = 0` and `found_in`
containing only the lexical tag — whenever `n ≤ top_k`; when `n > top_k` the
output is truncated to the top `top_k` of them. -/
theorem search_vector_failure_keeps_lexical (st : HState) (query : List Char)
    (top_k : ℤ)
    (hq : (HybridSearchService.pyStrip query).isEmpty = false)
    (hnd : ((HybridSearchService.bm25_search st query (top_k * 2)).map
      (fun e => e.content)).Nodup)
    (hne : ∀ e ∈ HybridSearchService.bm25_search st query (top_k * 2),
      e.content.isEmpty = false)
    (hk : 0 ≤ top_k)
    (hlen : (HybridSearchService.bm25_search st query (top_k * 2)).length
      ≤ top_k.toNat) :
    ((HybridSearchService.search st none query top_k).map (fun r => r.content)).Perm
      ((HybridSearchService.bm25_search st query (top_k * 2)).map (fun e => e.content))
    ∧ ∀ r ∈ HybridSearchService.search st none query top_k,
        r.vector_score = 0 ∧ r.found_in = [Tag.bm25] := by
  have hsearch : HybridSearchService.search st none query top_k
      = HybridSearchService.combine_results st.bm25_weight st.vector_weight
          (HybridSearchService.bm25_search st query (top_k * 2)) [] top_k := by
    unfold HybridSearchService.search
    rw [if_neg (by simp [hq])]
    rfl
  rw [hsearch]
  exact combine_results_lexical_only st.bm25_weight st.vector_weight _ top_k hnd hne hk hlen

/-- C7 witness: over the `stFive` corpus (sign-faithful logarithm) with
`top_k = 5`, the vector failure leaves exactly the two lexical results. -/
theorem search_vector_failure_keeps_lexical_witness :
    ((HybridSearchService.search (stFive lgSgn) none aWord 5).map (fun r => r.content)).Perm
      ((HybridSearchService.bm25_search (stFive lgSgn) aWord (5 * 2)).map (fun e => e.content)) :=
  (search_vector_failure_keeps_lexical (stFive lgSgn) aWord 5 (by decide) (by decide)
    (by decide) (by decide) (by decide)).1

/-! ## C2: full rebuild is not failure-atomic -/

/-- C2 counterexample: starting from a Ready one-document index, a corpus
fetch failure during `rebuild_index` leaves the index cleared, not the
previously Ready one: the built flag is dropped, the documents are gone, and
a query that used to return a result now returns nothing. -/
theorem rebuild_failure_loses_previous_index :
    stOne.bm25_index_built = true
    ∧ (HybridSearchService.bm25_search stOne aWord 5).length = 1
    ∧ (HybridSearchService.rebuild_index lgOne stOne none).1.documents = []
    ∧ (HybridSearchService.rebuild_index lgOne stOne none).1.bm25_index_built = false
    ∧ (HybridSearchService.bm25_search
        (HybridSearchService.rebuild_index lgOne stOne none).1 aWord 5).length = 0
    ∧ (HybridSearchService.rebuild_index lgOne stOne none).1.documents
        ≠ stOne.documents := by
  refine ⟨?_, ?_, ?_, ?_, ?_, ?_⟩
  · decide
  · decide
  · decide
  · decide
  · decide
  · decide

/-- C2 (amended): `rebuild_index` clears the in-memory index *before*
fetching; when the corpus fetch fails, for every prior state the resulting
state has no documents and no metadata, the built flag is false — so every
subsequent lexical query is answered by the empty-index guard with `[]`, not
from the previously Ready index — the stale fitted BM25 object is left in
place, and the failure is reported to the caller. -/
theorem rebuild_index_failure_state (lg : ℚ → ℚ) (st : HState) :
    (HybridSearchService.rebuild_index lg st none).1.documents = []
    ∧ (HybridSearchService.rebuild_index lg st none).1.document_metadata = []
    ∧ (HybridSearchService.rebuild_index lg st none).1.bm25_index_built = false
    ∧ (HybridSearchService.rebuild_index lg st none).1.bm25 = st.bm25
    ∧ (HybridSearchService.rebuild_index lg st none).2 = false
    ∧ ∀ (query : List Char) (top_k : ℤ),
        HybridSearchService.bm25_search
          (HybridSearchService.rebuild_index lg st none).1 query top_k = [] :=
  ⟨rfl, rfl, rfl, rfl, rfl, fun _ _ => rfl⟩

/-! ## C3: degenerate query inputs -/

/-- C3 counterexample: for the negative `top_k = -1` (a non-positive value
the claim covers) over the five-document `stFive` corpus (where the real
IDF is `ln(7/5) > 0`), `search` returns a nonempty result list: Python's
`scores[:top_k]` slicing with a negative bound drops `|top_k|` items from
the end instead of returning `[]`.  The behaviour is proved by
`stFive_search_neg_one` for *every* logarithm positive at `7/5` — the only
argument this run evaluates the logarithm at — so it is the real program's
behaviour under `math.log`; the closed instance uses the sign-faithful
surrogate `lgSgn`. -/
theorem search_negative_top_k_not_empty :
    (HybridSearchService.pyStrip aWord).isEmpty = false
    ∧ 0 < lgSgn ((7:ℚ)/5)
    ∧ (HybridSearchService.search (stFive lgSgn) (some []) aWord (-1)).length = 1 :=
  ⟨by decide, by decide, stFive_search_neg_one lgSgn (by decide)⟩

/-- C3 (amended): an empty or whitespace-only query yields `[]` for every
`top_k`, and `top_k = 0` yields `[]` for every query (the model is total, so
no exception is raised); but a *negative* `top_k` need not yield `[]` —
Python slice semantics drop `|top_k|` trailing items instead, as the
counterexample shows. -/
theorem search_degenerate_inputs :
    (∀ (st : HState) (vres : Option (List VecResult)) (query : List Char) (top_k : ℤ),
        (HybridSearchService.pyStrip query).isEmpty = true →
        HybridSearchService.search st vres query top_k = [])
    ∧ (∀ (st : HState) (vres : Option (List VecResult)) (query : List Char),
        HybridSearchService.search st vres query 0 = []) := by
  constructor
  · intro st vres query top_k hq
    unfold HybridSearchService.search
    rw [if_pos hq]
  · intro st vres query
    unfold HybridSearchService.search
    split
    · rfl
    · simp [HybridSearchService.combine_results, pySliceTo]

/-- C3 witness: a whitespace-only query returns the empty list. -/
theorem search_degenerate_inputs_witness :
    HybridSearchService.search stOne none [' '] 5 = [] :=
  search_degenerate_inputs.1 stOne none [' '] 5 (by decide)

/-! ## C8: source-scoped rebuild and full statistics recomputation -/

/-- The index-collecting removal loop equals filtering the zipped parallel
lists (documents side), when the two lists have equal length. -/
theorem range_filter_filterMap_get_fst {X : Type} (p : DocMeta → Bool) :
    ∀ (A : List X) (B : List DocMeta), A.length = B.length →
      ((List.range B.length).filter (fun i => p (B.getD i dmDefault))).filterMap
        (fun i => A.get? i)
      = ((A.zip B).filter (fun ab => p ab.2)).map Prod.fst
  | [], [], _ => by simp
  | [], b :: B, h => by simp at h
  | a :: A, [], h => by simp at h
  | a :: A, b :: B, h => by
    have h' : A.length = B.length := by simpa using h
    have ih := range_filter_filterMap_get_fst p A B h'
    have hqs : ((fun i => p ((b :: B).getD i dmDefault)) ∘ Nat.succ)
        = (fun i => p (B.getD i dmDefault)) := by
      funext i
      simp [Function.comp]
    have hgs : ((fun i => (a :: A).get? i) ∘ Nat.succ) = (fun i => A.get? i) := by
      funext i
      simp [Function.comp]
    rw [List.length_cons, List.range_succ_eq_map]
    simp only [List.zip_cons_cons, List.filter_cons, List.getD_cons_zero]
    by_cases hb : p b = true
    · rw [if_pos hb, if_pos hb]
      rw [List.filter_map, hqs, List.filterMap_cons]
      simp only [List.get?_cons_zero, List.filterMap_map, hgs]
      rw [ih, List.map_cons]
    · rw [if_neg hb, if_neg hb]
      rw [List.filter_map, hqs, List.filterMap_map, hgs, ih]

/-- The index-collecting removal loop equals plain filtering (metadata
side). -/
theorem range_filter_filterMap_get_snd (p : DocMeta → Bool) :
    ∀ (B : List DocMeta),
      ((List.range B.length).filter (fun i => p (B.getD i dmDefault))).filterMap
        (fun i => B.get? i)
      = B.filter p
  | [] => by simp
  | b :: B => by
    have ih := range_filter_filterMap_get_snd p B
    have hqs : ((fun i => p ((b :: B).getD i dmDefault)) ∘ Nat.succ)
        = (fun i => p (B.getD i dmDefault)) := by
      funext i
      simp [Function.comp]
    have hgs : ((fun i => (b :: B).get? i) ∘ Nat.succ) = (fun i => B.get? i) := by
      funext i
      simp [Function.comp]
    rw [List.length_cons, List.range_succ_eq_map]
    simp only [List.filter_cons, List.getD_cons_zero]
    by_cases hb : p b = true
    · rw [if_pos hb, if_pos hb]
      rw [List.filter_map, hqs, List.filterMap_cons]
      simp only [List.get?_cons_zero, List.filterMap_map, hgs]
      rw [ih]
    · rw [if_neg hb, if_neg hb]
      rw [List.filter_map, hqs, List.filterMap_map, hgs, ih]

/-- Lemma: `_remove_documents_by_source` deletes exactly the positions whose
metadata carries the source, from both parallel lists. -/
theorem remove_documents_by_source_eq (st : HState) (s : List Char)
    (hlen : st.documents.length = st.document_metadata.length) :
    (HybridSearchService.remove_documents_by_source st s).documents
      = ((st.documents.zip st.document_metadata).filter
          (fun ab => decide (ab.2.source ≠ s))).map Prod.fst
    ∧ (HybridSearchService.remove_documents_by_source st s).document_metadata
      = st.document_metadata.filter (fun m => decide (m.source ≠ s)) := by
  constructor
  · show ((List.range st.document_metadata.length).filter
        (fun i => decide ((st.document_metadata.getD i dmDefault).source ≠ s))).filterMap
          (fun i => st.documents.get? i)
        ++ st.documents.drop st.document_metadata.length = _
    have hdrop : st.documents.drop st.document_metadata.length = [] := by
      rw [← hlen]
      exact List.drop_length _
    rw [hdrop, List.append_nil]
    exact range_filter_filterMap_get_fst (fun m => decide (m.source ≠ s))
      st.documents st.document_metadata hlen
  · exact range_filter_filterMap_get_snd (fun m => decide (m.source ≠ s))
      st.document_metadata

/-- Lemma: `_add_documents_to_index` appends the nonempty-content documents. -/
theorem add_documents_to_index_documents (lg : ℚ → ℚ) (st : HState) (docs : List Doc) :
    (HybridSearchService.add_documents_to_index lg st docs).documents
      = st.documents ++ (docs.filter (fun d => !d.content.isEmpty)).map (fun d => d.content) := by
  by_cases h : (st.documents
      ++ (docs.filter (fun d => !d.content.isEmpty)).map (fun d => d.content)).isEmpty
  · simp only [HybridSearchService.add_documents_to_index]
    rw [if_pos h]
  · simp only [HybridSearchService.add_documents_to_index]
    rw [if_neg h]

/-- Lemma: `_add_documents_to_index` appends the corresponding metadata. -/
theorem add_documents_to_index_metadata (lg : ℚ → ℚ) (st : HState) (docs : List Doc) :
    (HybridSearchService.add_documents_to_index lg st docs).document_metadata
      = st.document_metadata ++ (docs.filter (fun d => !d.content.isEmpty)).map
          (fun d => ({ source := d.source, meta := d.meta } : DocMeta)) := by
  by_cases h : (st.documents
      ++ (docs.filter (fun d => !d.content.isEmpty)).map (fun d => d.content)).isEmpty
  · simp only [HybridSearchService.add_documents_to_index]
    rw [if_pos h]
  · simp only [HybridSearchService.add_documents_to_index]
    rw [if_neg h]

/-- When the merged document list is nonempty, `_add_documents_to_index`
refits BM25 over the whole merged list and sets the built flag. -/
theorem add_documents_to_index_refit (lg : ℚ → ℚ) (st : HState) (docs : List Doc)
    (h : (st.documents
      ++ (docs.filter (fun d => !d.content.isEmpty)).map (fun d => d.content)) ≠ []) :
    (HybridSearchService.add_documents_to_index lg st docs).bm25
      = BM25.fit lg st.bm25.k1 st.bm25.b
          (st.documents ++ (docs.filter (fun d => !d.content.isEmpty)).map (fun d => d.content))
    ∧ (HybridSearchService.add_documents_to_index lg st docs).bm25_index_built = true := by
  have h' : (st.documents
      ++ (docs.filter (fun d => !d.content.isEmpty)).map (fun d => d.content)).isEmpty = false := by
    simp [List.isEmpty_eq_false, h]
  constructor
  · simp only [HybridSearchService.add_documents_to_index]
    rw [if_neg (by simp [h'])]
  · simp only [HybridSearchService.add_documents_to_index]
    rw [if_neg (by simp [h'])]

/-- C8 counterexample: when the store currently holds no documents for the
source (`get_documents_by_source` returns `[]`), `rebuild_index_by_source`
returns early: the in-memory documents tagged with that source are *not*
removed and nothing is recomputed, contradicting the claim's universally
quantified description. -/
theorem rebuild_by_source_empty_fetch_keeps_docs :
    (HybridSearchService.rebuild_index_by_source lgOne stSrc "a".toList (some [])).1.documents
      = stSrc.documents
    ∧ ((HybridSearchService.rebuild_index_by_source lgOne stSrc "a".toList
        (some [])).1.document_metadata.map (fun m => m.source)) = ["a".toList]
    ∧ stSrc.documents ≠ [] := by
  refine ⟨?_, ?_, ?_⟩
  · decide
  · decide
  · decide

/-- C8 (amended): whenever the fetch for the source returns a *nonempty*
document list, `rebuild_index_by_source` removes every in-memory document
tagged with that source, appends the fetched documents (those with nonempty
content), reports success, and — whenever the resulting document set is
nonempty — refits the full BM25 statistics (term/document frequencies, IDF
cache, average length, document count) over the entire resulting in-memory
set, not just the replaced subset.  When the fetch returns `[]`, the state
is left untouched (see the counterexample). -/
theorem rebuild_by_source_full_stats (lg : ℚ → ℚ) (st : HState) (s : List Char)
    (docs : List Doc) (hlen : st.documents.length = st.document_metadata.length)
    (hne : docs ≠ []) :
    (HybridSearchService.rebuild_index_by_source lg st s (some docs)).1.documents
      = ((st.documents.zip st.document_metadata).filter
          (fun ab => decide (ab.2.source ≠ s))).map Prod.fst
        ++ (docs.filter (fun d => !d.content.isEmpty)).map (fun d => d.content)
    ∧ (HybridSearchService.rebuild_index_by_source lg st s (some docs)).1.document_metadata
      = (st.document_metadata.filter (fun m => decide (m.source ≠ s)))
        ++ (docs.filter (fun d => !d.content.isEmpty)).map
            (fun d => ({ source := d.source, meta := d.meta } : DocMeta))
    ∧ (HybridSearchService.rebuild_index_by_source lg st s (some docs)).2 = true
    ∧ ((HybridSearchService.rebuild_index_by_source lg st s (some docs)).1.documents ≠ [] →
        (HybridSearchService.rebuild_index_by_source lg st s (some docs)).1.bm25
          = BM25.fit lg st.bm25.k1 st.bm25.b
              (HybridSearchService.rebuild_index_by_source lg st s (some docs)).1.documents
        ∧ (HybridSearchService.rebuild_index_by_source lg st s
            (some docs)).1.bm25_index_built = true) := by
  have hne' : docs.isEmpty = false := by simp [List.isEmpty_eq_false, hne]
  have hstep : HybridSearchService.rebuild_index_by_source lg st s (some docs)
      = (HybridSearchService.add_documents_to_index lg
          (HybridSearchService.remove_documents_by_source st s) docs, true) := by
    unfold HybridSearchService.rebuild_index_by_source
    show (if docs.isEmpty = true then (st, true)
        else (HybridSearchService.add_documents_to_index lg
          (HybridSearchService.remove_documents_by_source st s) docs, true)) = _
    rw [if_neg (by simp [hne'])]
  obtain ⟨hrd, hrm⟩ := remove_documents_by_source_eq st s hlen
  have hrb : (HybridSearchService.remove_documents_by_source st s).bm25 = st.bm25 := rfl
  refine ⟨?_, ?_, ?_, ?_⟩
  · rw [hstep]
    show (HybridSearchService.add_documents_to_index lg
        (HybridSearchService.remove_documents_by_source st s) docs).documents = _
    rw [add_documents_to_index_documents, hrd]
  · rw [hstep]
    show (HybridSearchService.add_documents_to_index lg
        (HybridSearchService.remove_documents_by_source st s) docs).document_metadata = _
    rw [add_documents_to_index_metadata, hrm]
  · rw [hstep]
  · intro hdocs
    rw [hstep] at hdocs ⊢
    have hdocs' : ((HybridSearchService.remove_documents_by_source st s).documents
        ++ (docs.filter (fun d => !d.content.isEmpty)).map (fun d => d.content)) ≠ [] := by
      have := add_documents_to_index_documents lg
        (HybridSearchService.remove_documents_by_source st s) docs
      rw [this] at hdocs
      exact hdocs
    obtain ⟨hfit, hbuilt⟩ := add_documents_to_index_refit lg
      (HybridSearchService.remove_documents_by_source st s) docs hdocs'
    refine ⟨?_, hbuilt⟩
    show (HybridSearchService.add_documents_to_index lg
        (HybridSearchService.remove_documents_by_source st s) docs).bm25 = _
    rw [hfit, hrb]
    congr 1
    rw [add_documents_to_index_documents]

/-- C8 witness: replacing source `a`'s single document with a freshly
fetched one over the one-document corpus. -/
theorem rebuild_by_source_full_stats_witness :
    (HybridSearchService.rebuild_index_by_source lgOne stSrc "a".toList
        (some [{ content := "y0".toList, source := "a".toList, meta := [] }])).1.documents
      = ((stSrc.documents.zip stSrc.document_metadata).filter
          (fun ab => decide (ab.2.source ≠ "a".toList))).map Prod.fst
        ++ (([{ content := "y0".toList, source := "a".toList, meta := [] }] : List Doc).filter
            (fun d => !d.content.isEmpty)).map (fun d => d.content) :=
  (rebuild_by_source_full_stats lgOne stSrc "a".toList
    [{ content := "y0".toList, source := "a".toList, meta := [] }]
    (by decide) (by decide)).1

/-- Lemma: `twoGrams` produces exactly the overlapping 2-character windows. -/
theorem twoGrams_windows (l : List Char) : twoGrams l = specTwoGrams l := by
  induction l with
  | nil => rfl
  | cons c1 tl ih =>
    cases tl with
    | nil => rfl
    | cons c2 rest =>
      simp only [twoGrams, specTwoGrams] at ih ⊢
      simp only [List.length_cons, Nat.add_sub_cancel, List.range_succ_eq_map,
        List.map_cons, List.map_map, List.drop_zero, List.take_succ_cons,
        List.take_zero]
      rw [ih]
      simp only [List.length_cons, Nat.add_sub_cancel]
      congr 1

/-! ## C5: the tokenizer -/

/-- Concrete input on which the tokenizer differs from the claim: the token
`가a가` is not composed entirely of Hangul syllables, yet the code's anchored
`re.match(r"[가-힣]+", ·)` accepts it and 2-gram expansion fires. -/
def hangulMix : List Char := "가a가".toList

/-- C5 counterexample: on `"가a가"` the tokenizer emits the 2-grams
`가a` and `a가` although the token is not composed entirely of Hangul
syllables, so the claim's description of the expansion guard is false. -/
theorem tokenize_ne_claim_on_mixed_token :
    tokenize hangulMix ≠ tokenizeSpec hangulMix ∧
    tokenize hangulMix = [['가', 'a', '가'], ['가', 'a'], ['a', '가']] := by
  constructor
  · decide
  · decide

/-- C5 (amended): `tokenize` lower-cases, replaces every character outside
word characters, whitespace and Hangul syllables by a space, splits on
whitespace, discards tokens shorter than 2 characters, and emits every
overlapping 2-character substring exactly for those surviving tokens that
are at least 3 characters long and whose first character is a Hangul
syllable (anchored `re.match`), keeping insertion order and duplicates. -/
theorem tokenize_eq_spec_amended (text : List Char) :
    tokenize text = tokenizeSpecAmended text := by
  simp only [tokenize, tokenizeSpecAmended]
  congr 1
  funext tok
  simp only [expandToken, twoGrams_windows]

end LawMate
